import Mathlib

/-!
Shallow embedding of the balltok article-sourcing pipeline
(`src/frontend/src/hooks/useWikiArticles.ts` and the related hooks), with
theorems settling the claims made by the specification about it.

Randomness is made explicit: every call site of `Math.random()` in the
source is modelled by an extra argument carrying the sequence of drawn
indices, and network I/O is modelled by an oracle listing the successive
API responses.
-/

namespace BallTok

universe u

variable {α : Type u}

/-- One swap step of the Fisher–Yates loop in `shuffleArray`
(`[array[i], array[j]] = [array[j], array[i]]`).  An out-of-range index
leaves the list unchanged; the source loop only ever uses in-range
indices. -/
def swapAt (l : List α) (i j : Nat) : List α :=
  match l[i]?, l[j]? with
  | some a, some b => (l.set i b).set j a
  | _, _ => l

/-- The body of `shuffleArray`: the loop `for (let i = array.length - 1; i > 0; i--)`,
counting `i` down and consuming one random draw `j` per iteration. -/
def fyAux : List α → Nat → List Nat → List α
  | l, 0, _ => l
  | l, _ + 1, [] => l
  | l, i + 1, j :: rest => fyAux (swapAt l (i + 1) j) i rest

/-- The function `shuffleArray` from `useWikiArticles.ts` (Fisher–Yates): the loop starts
at index `array.length - 1` and the draws list carries the successive values
of `Math.floor(Math.random() * (i + 1))`. -/
def shuffleArray (l : List α) (draws : List Nat) : List α :=
  fyAux l (l.length - 1) draws

/-- A draws list is one the source can actually produce for an array of
length `n`: exactly one draw per loop iteration (`n - 1` of them), and the
draw used at loop index `i` is `Math.floor(Math.random() * (i + 1))`, which
lies in `[0, i]`.  The head draw is used at `i = n - 1` and each following
draw at the next smaller index. -/
def validDraws : Nat → List Nat → Bool
  | 0, d => d.isEmpty
  | 1, d => d.isEmpty
  | _ + 2, [] => false
  | n + 2, j :: rest => j ≤ n + 1 && validDraws (n + 1) rest

theorem swapAt_length (l : List α) (i j : Nat) : (swapAt l i j).length = l.length := by
  unfold swapAt
  cases hi : l[i]? with
  | none => rfl
  | some a => cases hj : l[j]? with
    | none => rfl
    | some b => simp

theorem get_cons_set_perm :
    ∀ (xs : List α) (k : Nat) (h : k < xs.length) (x : α),
      (xs.get ⟨k, h⟩ :: xs.set k x).Perm (x :: xs)
  | y :: ys, 0, _, x => by simpa using List.Perm.swap x y ys
  | y :: ys, k + 1, h, x => by
    have h2 : k < ys.length := by simpa using h
    have step1 : (ys.get ⟨k, h2⟩ :: y :: ys.set k x).Perm (y :: ys.get ⟨k, h2⟩ :: ys.set k x) :=
      List.Perm.swap y (ys.get ⟨k, h2⟩) (ys.set k x)
    have step2 : (y :: ys.get ⟨k, h2⟩ :: ys.set k x).Perm (y :: x :: ys) :=
      (get_cons_set_perm ys k h2 x).cons y
    have step3 : (y :: x :: ys).Perm (x :: y :: ys) := List.Perm.swap x y ys
    simpa using (step1.trans step2).trans step3

theorem set_swap_perm :
    ∀ (l : List α) (i j : Nat) (hi : i < l.length) (hj : j < l.length),
      ((l.set i (l.get ⟨j, hj⟩)).set j (l.get ⟨i, hi⟩)).Perm l
  | x :: xs, 0, 0, _, _ => by simp
  | x :: xs, 0, k + 1, hi, hj => by
    have hk : k < xs.length := by simpa using hj
    simpa using get_cons_set_perm xs k hk x
  | x :: xs, m + 1, 0, hi, hj => by
    have hm : m < xs.length := by simpa using hi
    simpa using get_cons_set_perm xs m hm x
  | x :: xs, m + 1, k + 1, hi, hj => by
    have hm : m < xs.length := by simpa using hi
    have hk : k < xs.length := by simpa using hj
    simpa using (set_swap_perm xs m k hm hk).cons x

theorem swapAt_perm (l : List α) (i j : Nat) : (swapAt l i j).Perm l := by
  unfold swapAt
  cases hi : l[i]? with
  | none => exact List.Perm.refl _
  | some a =>
    cases hj : l[j]? with
    | none => exact List.Perm.refl _
    | some b =>
      obtain ⟨hi2, ha⟩ := List.getElem?_eq_some_iff.mp hi
      obtain ⟨hj2, hb⟩ := List.getElem?_eq_some_iff.mp hj
      have ha2 : a = l.get ⟨i, hi2⟩ := ha.symm
      have hb2 : b = l.get ⟨j, hj2⟩ := hb.symm
      subst ha2
      subst hb2
      exact set_swap_perm l i j hi2 hj2

theorem fyAux_perm : ∀ (i : Nat) (draws : List Nat) (l : List α), (fyAux l i draws).Perm l
  | 0, _, _ => List.Perm.refl _
  | _ + 1, [], _ => List.Perm.refl _
  | i + 1, j :: rest, l =>
    (fyAux_perm i rest (swapAt l (i + 1) j)).trans (swapAt_perm l (i + 1) j)

/-- C10: for every input list and every sequence of random index draws,
`shuffleArray` returns a list of the same length containing exactly the same
elements with the same multiplicities — its output is a permutation of its
input. -/
theorem shuffleArray_is_permutation (l : List α) (draws : List Nat) :
    (shuffleArray l draws).Perm l ∧ (shuffleArray l draws).length = l.length :=
  ⟨fyAux_perm _ _ _, (fyAux_perm _ _ _).length_eq⟩

/-! Batch selection (steps 8 of `fetchAndProcessArticles`) -/

/-- The constant `BATCH_SIZE = 40`. -/
def BATCH_SIZE : Nat := 40

/-- The constant `SUBCAT_SAMPLE_SIZE = 5`. -/
def SUBCAT_SAMPLE_SIZE : Nat := 5

/-- Steps 8 of `fetchAndProcessArticles`: filter the pool down to ids not in
`shownPageIds`, reset the shown set on exhaustion, shuffle a copy of the
candidates and take the first `BATCH_SIZE`.  Returns the ids to fetch and the
shown set as it stands after the (possible) reset. -/
def selectBatch (allAvailableIds : List Nat) (shown : Finset Nat) (draws : List Nat) :
    List Nat × Finset Nat :=
  let potentialIds := allAvailableIds.filter fun id => id ∉ shown
  let reset := potentialIds = [] ∧ allAvailableIds ≠ []
  let candidates := if reset then allAvailableIds else potentialIds
  let shown2 := if reset then (∅ : Finset Nat) else shown
  let shuffledIds := shuffleArray candidates draws
  (shuffledIds.take BATCH_SIZE, shown2)

/-- The candidate count left after the unseen filter and any exhaustion
reset, as the spec phrases it. -/
def availableCount (allAvailableIds : List Nat) (shown : Finset Nat) : Nat :=
  if allAvailableIds.filter (fun id => id ∉ shown) = [] ∧ allAvailableIds ≠ [] then
    allAvailableIds.length
  else (allAvailableIds.filter fun id => id ∉ shown).length

/-- The thumbnail component of a record (`PageThumbnail` in the source). -/
structure PageThumbnail where
  source : String
  width : Nat
  height : Nat
deriving DecidableEq

/-- The display-ready article record (`WikiArticle` from `WikiCard`). -/
structure WikiArticle where
  title : String
  displaytitle : String
  extract : String
  pageid : Nat
  thumbnail : Option PageThumbnail
  url : String
deriving DecidableEq

/-- Steps 7–10 of `fetchAndProcessArticles`, the part of a production cycle
that selects a batch and updates `shownPageIds`.  `details` stands for the
awaited result of `fetchArticleDetails idsToFetch` (an empty list when that
call failed).  Returns the attempted ids, the shown set after the cycle, and
the fetched records.  Mirrors the source exactly: the ids are added to the
shown set after the detail fetch completes, whether or not it succeeded. -/
def cycleSelectAndMark (allAvailableIds : List Nat) (shown : Finset Nat)
    (draws : List Nat) (details : List Nat → List WikiArticle) :
    List Nat × Finset Nat × List WikiArticle :=
  if allAvailableIds = [] then ([], shown, [])
  else
    let sel := selectBatch allAvailableIds shown draws
    let idsToFetch := sel.1
    if idsToFetch = [] then ([], sel.2, [])
    else
      let newArticles := details idsToFetch
      (idsToFetch, idsToFetch.foldl (fun s id => insert id s) sel.2, newArticles)

/-- Steps 3–4 of `fetchAndProcessArticles`: shuffle the aggregated
subcategory names and take the first `SUBCAT_SAMPLE_SIZE`. -/
def sampleSubcats (allSubcatNames : List String) (draws : List Nat) : List String :=
  (shuffleArray allSubcatNames draws).take SUBCAT_SAMPLE_SIZE

/-! Feed state and the consumer advance (`getMoreArticles`) -/

/-- The `articles` and `buffer` state of the hook. -/
structure FeedState where
  articles : List WikiArticle
  buffer : List WikiArticle
deriving DecidableEq

/-- Which production cycle `getMoreArticles` kicks off
(`fetchAndProcessArticles(true)` or `fetchAndProcessArticles(false)`). -/
inductive ProduceRequest where
  | forBuffer
  | forDisplay
deriving DecidableEq

/-- The function `getMoreArticles`: when the buffer is non-empty, append it to the
displayed list, clear it and request a buffered production cycle; otherwise
request a display production cycle. -/
def getMoreArticles (st : FeedState) : FeedState × ProduceRequest :=
  if st.buffer.length > 0 then
    ({ articles := st.articles ++ st.buffer, buffer := [] }, ProduceRequest.forBuffer)
  else
    (st, ProduceRequest.forDisplay)

/-! Category member resolution (`fetchCategoryMembers`) -/

/-- The member kind type parameter (page or subcat). -/
inductive MemberType where
  | page
  | subcat
deriving DecidableEq

/-- The per-key entries of `fetchingStatus` (pending, done or error). -/
inductive FetchStatus where
  | pending
  | done
  | error
deriving DecidableEq

/-- One item of `query.categorymembers`. -/
structure CategoryMember where
  pageid : Nat
  ns : Nat
  title : String
deriving DecidableEq

/-- The `continue` object of a listing response. -/
structure ApiContinue where
  cmcontinue : String
deriving DecidableEq

/-- One response of the paginated `list=categorymembers` call.  `error` is
`some info` when the body carried an `error` payload; `members` is
`data.query?.categorymembers || []`. -/
structure CMResponse where
  error : Option String
  members : List CategoryMember
  cont : Option ApiContinue
deriving DecidableEq

/-- Models `data.continue?.cmcontinue || null` (the empty string is falsy in JS). -/
def contToken (c : Option ApiContinue) : Option String :=
  match c with
  | none => none
  | some c2 => if c2.cmcontinue = "" then none else some c2.cmcontinue

/-- The `do … while (cmcontinue)` pagination loop.  The oracle `net` lists
the successive responses; running out of responses models a rejected
`fetch` (network failure), and an `error` payload throws.  Returns the
accumulated members (or the failure) together with the number of network
calls made. -/
def fetchLoop (extract : CategoryMember → α) :
    List CMResponse → List α → Except Unit (List α) × Nat
  | [], _ => (Except.error (), 1)
  | r :: rest, acc =>
    if r.error.isSome then (Except.error (), 1)
    else
      let acc2 := acc ++ r.members.map extract
      match contToken r.cont with
      | none => (Except.ok acc2, 1)
      | some _ =>
        let res := fetchLoop extract rest acc2
        (res.1, res.2 + 1)

/-- The three refs holding cross-cycle resolver state: `categoryPageIds`,
`categorySubcats` and `fetchingStatus`.  An outer `none` models a missing
key (JS `undefined`); an inner `none` models an explicitly stored `null`. -/
structure ResolverState where
  categoryPageIds : String → Option (Option (List Nat))
  categorySubcats : String → Option (Option (List String))
  fetchingStatus : String → Option FetchStatus

/-- The per-key status key: category name and member kind joined by a dash. -/
def memberTypeStr : MemberType → String
  | MemberType.page => "page"
  | MemberType.subcat => "subcat"

def cacheKey (categoryName : String) (t : MemberType) : String :=
  categoryName ++ "-" ++ memberTypeStr t

/-- What `fetchCategoryMembers` returns: `null`, a page-id list, or a
subcategory-title list. -/
inductive FetchResult where
  | nullResult
  | pages (ids : List Nat)
  | subcats (titles : List String)
deriving DecidableEq

/-- The `cacheRef.current[categoryName]` read for the kind-appropriate
cache: `some r` when the entry is not `undefined`. -/
def cachedEntry (st : ResolverState) (categoryName : String) : MemberType → Option FetchResult
  | MemberType.page =>
    (st.categoryPageIds categoryName).map fun v =>
      match v with
      | some ids => FetchResult.pages ids
      | none => FetchResult.nullResult
  | MemberType.subcat =>
    (st.categorySubcats categoryName).map fun v =>
      match v with
      | some ts => FetchResult.subcats ts
      | none => FetchResult.nullResult

def statusSet (st : ResolverState) (key : String) (s : FetchStatus) : ResolverState :=
  { st with fetchingStatus := fun k => if k = key then some s else st.fetchingStatus k }

def pageCacheSet (st : ResolverState) (cat : String) (v : Option (List Nat)) : ResolverState :=
  { st with categoryPageIds := fun c => if c = cat then some v else st.categoryPageIds c }

def subcatCacheSet (st : ResolverState) (cat : String) (v : Option (List String)) : ResolverState :=
  { st with categorySubcats := fun c => if c = cat then some v else st.categorySubcats c }

/-- The `finally` clause: if the status for the key is still `pending`,
set it to `error`. -/
def finalizeStatus (st : ResolverState) (key : String) : ResolverState :=
  if st.fetchingStatus key = some FetchStatus.pending then statusSet st key FetchStatus.error
  else st

/-- How a call to `fetchCategoryMembers` proceeds past its two guards:
a cache hit returns immediately, a pending key no-ops, otherwise the call
marks the key `pending` and resolves over the network. -/
inductive BeginOutcome where
  | cachedHit (r : FetchResult)
  | pendingHit
  | proceed
deriving DecidableEq

/-- The guards of `fetchCategoryMembers` (everything before the network
loop), marking the key `pending` when the call proceeds to resolve. -/
def beginFetch (st : ResolverState) (cat : String) (t : MemberType) :
    BeginOutcome × ResolverState :=
  match cachedEntry st cat t with
  | some r =>
    if st.fetchingStatus (cacheKey cat t) ≠ some FetchStatus.error then
      (BeginOutcome.cachedHit r, st)
    else if st.fetchingStatus (cacheKey cat t) = some FetchStatus.pending then
      (BeginOutcome.pendingHit, st)
    else (BeginOutcome.proceed, statusSet st (cacheKey cat t) FetchStatus.pending)
  | none =>
    if st.fetchingStatus (cacheKey cat t) = some FetchStatus.pending then
      (BeginOutcome.pendingHit, st)
    else (BeginOutcome.proceed, statusSet st (cacheKey cat t) FetchStatus.pending)

/-- The resolving tail of `fetchCategoryMembers`: run the pagination loop,
then cache the result and set the terminal status (success caches the list
and marks `done`; failure marks `error` and caches `null`), and apply the
`finally` fallback. -/
def finishFetch (st : ResolverState) (cat : String) (t : MemberType) (net : List CMResponse) :
    FetchResult × ResolverState × Nat :=
  match t with
  | MemberType.page =>
    match fetchLoop (fun m => m.pageid) net [] with
    | (Except.ok ids, n) =>
      (FetchResult.pages ids,
        finalizeStatus (statusSet (pageCacheSet st cat (some ids)) (cacheKey cat t)
          FetchStatus.done) (cacheKey cat t), n)
    | (Except.error _, n) =>
      (FetchResult.nullResult,
        finalizeStatus (pageCacheSet (statusSet st (cacheKey cat t) FetchStatus.error) cat none)
          (cacheKey cat t), n)
  | MemberType.subcat =>
    match fetchLoop (fun m => m.title) net [] with
    | (Except.ok ts, n) =>
      (FetchResult.subcats ts,
        finalizeStatus (statusSet (subcatCacheSet st cat (some ts)) (cacheKey cat t)
          FetchStatus.done) (cacheKey cat t), n)
    | (Except.error _, n) =>
      (FetchResult.nullResult,
        finalizeStatus (subcatCacheSet (statusSet st (cacheKey cat t) FetchStatus.error) cat none)
          (cacheKey cat t), n)

/-- One complete call of `fetchCategoryMembers`: result, new resolver state,
and the number of network calls issued. -/
def fetchCategoryMembers (st : ResolverState) (cat : String) (t : MemberType)
    (net : List CMResponse) : FetchResult × ResolverState × Nat :=
  match beginFetch st cat t with
  | (BeginOutcome.cachedHit r, st2) => (r, st2, 0)
  | (BeginOutcome.pendingHit, st2) => (FetchResult.nullResult, st2, 0)
  | (BeginOutcome.proceed, st2) => finishFetch st2 cat t net

/-! Article detail hydration (`fetchArticleDetails`) -/

/-- One page object of the detail response; optional fields model missing
JSON properties. -/
structure PageInfo where
  pageid : Option Nat
  title : Option String
  extract : Option String
  canonicalurl : Option String
  varianttitles : Option (List (String × String))
  thumbnail : Option PageThumbnail
deriving DecidableEq

/-- JS truthiness of an optional number (`0` and a missing field are falsy). -/
def truthyNat : Option Nat → Bool
  | none => false
  | some n => n != 0

/-- JS truthiness of an optional string (`""` and a missing field are falsy). -/
def truthyStr : Option String → Bool
  | none => false
  | some s => s != ""

/-- Models `page.varianttitles?.[currentLanguage.id]`. -/
def variantLookup (vt : Option (List (String × String))) (lang : String) : Option String :=
  vt.bind fun m => m.lookup lang

/-- The `.map` callback of `fetchArticleDetails`: drop the page when any of
`pageid`, `title`, `extract`, `canonicalurl` is falsy, else build the
record, the display title falling back from the variant title to the
canonical title (`??`). -/
def pageToArticle (lang : String) (p : PageInfo) : Option WikiArticle :=
  if truthyNat p.pageid && truthyStr p.title && truthyStr p.extract && truthyStr p.canonicalurl
  then
    some
      { title := p.title.getD ""
        displaytitle := (variantLookup p.varianttitles lang).getD (p.title.getD "")
        extract := p.extract.getD ""
        pageid := p.pageid.getD 0
        thumbnail := p.thumbnail
        url := p.canonicalurl.getD "" }
  else none

/-- The thumbnail conjunct of the filter callback: `!!article.thumbnail?.source`. -/
def hasThumbSource (a : WikiArticle) : Bool :=
  match a.thumbnail with
  | some th => th.source != ""
  | none => false

/-- The function `fetchArticleDetails`: empty input short-circuits; a network failure or
API error payload (`resp = .error`) degrades to `[]`; otherwise map each
response page through validation and keep only records with a thumbnail
source.  Image preloading does not change the returned list. -/
def fetchArticleDetails (lang : String) (pageIds : List Nat)
    (resp : Except Unit (List PageInfo)) : List WikiArticle :=
  if pageIds.length = 0 then []
  else
    match resp with
    | Except.error _ => []
    | Except.ok pages => (pages.filterMap (pageToArticle lang)).filter hasThumbSource

/-- A response page carrying every field the feed needs: page identifier,
title, extract, canonical URL and a thumbnail source (the validity
condition for an `ArticleRecord`). -/
def pageHasAllFields (p : PageInfo) : Bool :=
  truthyNat p.pageid && truthyStr p.title && truthyStr p.extract && truthyStr p.canonicalurl &&
    (match p.thumbnail with
     | some th => th.source != ""
     | none => false)

/-- The record built for a page that passes validation. -/
def pageRecord (lang : String) (p : PageInfo) : WikiArticle :=
  { title := p.title.getD ""
    displaytitle := (variantLookup p.varianttitles lang).getD (p.title.getD "")
    extract := p.extract.getD ""
    pageid := p.pageid.getD 0
    thumbnail := p.thumbnail
    url := p.canonicalurl.getD "" }

/-! Supporting lemmas -/

theorem shuffleArray_length (l : List α) (draws : List Nat) :
    (shuffleArray l draws).length = l.length :=
  (fyAux_perm _ _ _).length_eq

theorem shuffleArray_mem {l : List α} {draws : List Nat} {a : α}
    (h : a ∈ shuffleArray l draws) : a ∈ l :=
  (fyAux_perm _ _ _).mem_iff.mp h

theorem selectBatch_eq_reset (pool : List Nat) (shown : Finset Nat) (draws : List Nat)
    (h : pool.filter (fun id => id ∉ shown) = [] ∧ pool ≠ []) :
    selectBatch pool shown draws = ((shuffleArray pool draws).take BATCH_SIZE, ∅) := by
  unfold selectBatch
  simp only [if_pos h]

theorem selectBatch_eq_fresh (pool : List Nat) (shown : Finset Nat) (draws : List Nat)
    (h : ¬(pool.filter (fun id => id ∉ shown) = [] ∧ pool ≠ [])) :
    selectBatch pool shown draws =
      ((shuffleArray (pool.filter fun id => id ∉ shown) draws).take BATCH_SIZE, shown) := by
  unfold selectBatch
  simp only [if_neg h]

theorem subset_foldl_insert :
    ∀ (ids : List Nat) (s : Finset Nat), s ⊆ ids.foldl (fun t id => insert id t) s
  | [], _ => fun _ h => h
  | i :: is, s => by
    intro a ha
    exact subset_foldl_insert is (insert i s) (Finset.mem_insert_of_mem ha)

theorem mem_foldl_insert :
    ∀ (ids : List Nat) (s : Finset Nat) (id : Nat), id ∈ ids →
      id ∈ ids.foldl (fun t j => insert j t) s
  | i :: is, s, id, h => by
    rcases List.mem_cons.mp h with h1 | h2
    · subst h1
      exact subset_foldl_insert is (insert id s) (Finset.mem_insert_self id s)
    · exact mem_foldl_insert is (insert i s) id h2

/-- A concrete display-ready record used by witness instantiations. -/
def witnessArticle : WikiArticle :=
  { title := "A"
    displaytitle := "A"
    extract := "e"
    pageid := 1
    thumbnail := some { source := "img", width := 800, height := 600 }
    url := "u" }

/-! Claim theorems: batch selection -/

/-- C7: for every pool and shown set, the selected batch has length at most
`BATCH_SIZE` (40), and its length equals the minimum of `BATCH_SIZE` and the
number of candidate ids available after the unseen filter and any
exhaustion reset. -/
theorem selectBatch_batch_bound (pool : List Nat) (shown : Finset Nat) (draws : List Nat) :
    (selectBatch pool shown draws).1.length ≤ BATCH_SIZE ∧
    (selectBatch pool shown draws).1.length = min BATCH_SIZE (availableCount pool shown) := by
  have h2 : (selectBatch pool shown draws).1.length = min BATCH_SIZE (availableCount pool shown) := by
    by_cases h : pool.filter (fun id => id ∉ shown) = [] ∧ pool ≠ []
    · rw [selectBatch_eq_reset pool shown draws h]
      unfold availableCount
      rw [if_pos h]
      simp [shuffleArray_length]
    · rw [selectBatch_eq_fresh pool shown draws h]
      unfold availableCount
      rw [if_neg h]
      simp [shuffleArray_length]
  exact ⟨h2 ▸ Nat.min_le_left _ _, h2⟩

/-- C5: batch selection never returns an id already in the shown set unless
the unseen subset of the pool was empty at call time; and on exhaustion of a
non-empty pool the shown set is cleared entirely and the selection again
returns up to `BATCH_SIZE` ids drawn from the full pool. -/
theorem selectBatch_unseen_and_reset (pool : List Nat) (shown : Finset Nat) (draws : List Nat) :
    (pool.filter (fun id => id ∉ shown) ≠ [] →
      ∀ id ∈ (selectBatch pool shown draws).1, id ∉ shown) ∧
    (pool ≠ [] → (∀ id ∈ pool, id ∈ shown) →
      (selectBatch pool shown draws).2 = ∅ ∧
      (selectBatch pool shown draws).1.length = min BATCH_SIZE pool.length ∧
      ∀ id ∈ (selectBatch pool shown draws).1, id ∈ pool) := by
  constructor
  · intro hne id hid
    have hcase : ¬(pool.filter (fun id => id ∉ shown) = [] ∧ pool ≠ []) := by
      intro h
      exact hne h.1
    rw [selectBatch_eq_fresh pool shown draws hcase] at hid
    have hmem : id ∈ pool.filter (fun id => id ∉ shown) :=
      shuffleArray_mem (List.mem_of_mem_take hid)
    have := List.of_mem_filter hmem
    simpa using this
  · intro hpool hall
    have hfil : pool.filter (fun id => id ∉ shown) = [] := by
      rw [List.filter_eq_nil_iff]
      intro a ha
      simpa using hall a ha
    rw [selectBatch_eq_reset pool shown draws ⟨hfil, hpool⟩]
    refine ⟨rfl, by simp [shuffleArray_length], ?_⟩
    intro id hid
    exact shuffleArray_mem (List.mem_of_mem_take hid)

theorem selectBatch_unseen_and_reset_witness :
    (2 : Nat) ∉ ({1} : Finset Nat) ∧ (selectBatch [1, 2] {1, 2} []).2 = ∅ :=
  ⟨(selectBatch_unseen_and_reset [1, 2] {1} []).1 (by decide) 2 (by decide),
   ((selectBatch_unseen_and_reset [1, 2] {1, 2} []).2 (by decide) (by decide)).1⟩

/-! Claim theorems: shown-set update after the detail fetch (C1) -/

/-- C1 counterexample: with pool `[1]`, empty shown set, and a detail fetch
that fails (returns the empty record list), the attempted id 1 is
nevertheless added to the shown set — contradicting the claim that a failed
detail fetch adds none of the attempted identifiers. -/
theorem cycle_marks_ids_even_on_failed_fetch :
    (cycleSelectAndMark [1] ∅ [] fun _ => []).2.2 = [] ∧
    (1 : Nat) ∈ (cycleSelectAndMark [1] ∅ [] fun _ => []).2.1 := by
  constructor
  · rfl
  · decide

/-- C1 amended: the shown-set update after the detail fetch is unconditional
— the resulting shown set is the same whatever the detail fetch returned,
and every attempted identifier is added to it, so after a failed detail
fetch the attempted ids are no longer selectable until an exhaustion
reset. -/
theorem cycle_marks_attempted_ids_unconditionally (pool : List Nat) (shown : Finset Nat)
    (draws : List Nat) (d1 d2 : List Nat → List WikiArticle) :
    (cycleSelectAndMark pool shown draws d1).2.1 = (cycleSelectAndMark pool shown draws d2).2.1 ∧
    ∀ id ∈ (cycleSelectAndMark pool shown draws d1).1,
      id ∈ (cycleSelectAndMark pool shown draws d1).2.1 := by
  unfold cycleSelectAndMark
  by_cases hp : pool = []
  · simp [hp]
  · rw [if_neg hp, if_neg hp]
    by_cases hsel : (selectBatch pool shown draws).1 = []
    · simp [hsel]
    · rw [if_neg hsel, if_neg hsel]
      exact ⟨rfl, fun id hid => mem_foldl_insert _ _ id hid⟩

theorem cycle_marks_attempted_ids_unconditionally_witness :
    (1 : Nat) ∈ (cycleSelectAndMark [1] ∅ [] fun _ => [witnessArticle]).2.1 :=
  (cycle_marks_attempted_ids_unconditionally [1] ∅ [] (fun _ => [witnessArticle])
    (fun _ => [])).2 1 (by decide)

/-! Claim theorems: consumer advance (C9) -/

/-- C9: when the buffer is non-empty, the advance call appends exactly the
buffered records, in order, to the end of the displayed list (leaving the
prior prefix unchanged), empties the buffer, and requests a new buffered
production cycle. -/
theorem getMoreArticles_buffer_swap (st : FeedState) (h : st.buffer ≠ []) :
    (getMoreArticles st).1.articles = st.articles ++ st.buffer ∧
    ((getMoreArticles st).1.articles).take st.articles.length = st.articles ∧
    ((getMoreArticles st).1.articles).drop st.articles.length = st.buffer ∧
    (getMoreArticles st).1.buffer = [] ∧
    (getMoreArticles st).2 = ProduceRequest.forBuffer := by
  have hl : st.buffer.length > 0 := List.length_pos.mpr h
  unfold getMoreArticles
  rw [if_pos hl]
  exact ⟨rfl, List.take_left _ _, List.drop_left _ _, rfl, rfl⟩

theorem getMoreArticles_buffer_swap_witness :
    (getMoreArticles (FeedState.mk [] [witnessArticle])).1.articles = [] ++ [witnessArticle] :=
  (getMoreArticles_buffer_swap (FeedState.mk [] [witnessArticle]) (List.cons_ne_nil _ _)).1

/-! Claim theorems: detail-fetch validation (C8) -/

theorem detailsPipeline_eq (lang : String) :
    ∀ pages : List PageInfo,
      (pages.filterMap (pageToArticle lang)).filter hasThumbSource =
        (pages.filter pageHasAllFields).map (pageRecord lang)
  | [] => rfl
  | p :: ps => by
    by_cases hc :
        (truthyNat p.pageid && truthyStr p.title && truthyStr p.extract &&
          truthyStr p.canonicalurl) = true
    · have hart : pageToArticle lang p = some (pageRecord lang p) := by
        unfold pageToArticle pageRecord
        rw [if_pos hc]
      by_cases ht :
          (match p.thumbnail with
           | some th => th.source != ""
           | none => false) = true
      · have hall : pageHasAllFields p = true := by
          unfold pageHasAllFields
          rw [hc, ht]
          rfl
        have hthumb : hasThumbSource (pageRecord lang p) = true := by
          unfold hasThumbSource pageRecord
          exact ht
        simp only [List.filterMap_cons, hart, List.filter_cons, hthumb, List.filter_cons_of_pos,
          hall, List.map_cons]
        simp [detailsPipeline_eq lang ps]
      · have hall : pageHasAllFields p = false := by
          unfold pageHasAllFields
          rw [hc]
          simpa using ht
        have hthumb : hasThumbSource (pageRecord lang p) = false := by
          unfold hasThumbSource pageRecord
          simpa using ht
        simp only [List.filterMap_cons, hart, List.filter_cons, hthumb, hall]
        simpa using detailsPipeline_eq lang ps
    · have hart : pageToArticle lang p = none := by
        unfold pageToArticle
        rw [if_neg hc]
      have hall : pageHasAllFields p = false := by
        unfold pageHasAllFields
        rcases Bool.eq_false_iff.mpr hc with _
        cases h4 : (truthyNat p.pageid && truthyStr p.title && truthyStr p.extract &&
            truthyStr p.canonicalurl) with
        | true => exact absurd h4 hc
        | false => simp [h4]
      simp only [List.filterMap_cons, hart, List.filter_cons, hall]
      simpa using detailsPipeline_eq lang ps

/-- C8: for every detail response, `fetchArticleDetails` returns exactly one
record per response page that carries a page identifier, title, extract,
canonical URL and thumbnail source, dropping every other page; in
particular one well-formed page plus one page lacking a thumbnail yield
exactly one record. -/
theorem fetchArticleDetails_validation (lang : String) (pageIds : List Nat)
    (pages : List PageInfo) (h : pageIds ≠ []) :
    fetchArticleDetails lang pageIds (Except.ok pages) =
      (pages.filter pageHasAllFields).map (pageRecord lang) ∧
    ∀ p q : PageInfo, pageHasAllFields p = true → q.thumbnail = none →
      fetchArticleDetails lang pageIds (Except.ok [p, q]) = [pageRecord lang p] := by
  have hlen : ¬pageIds.length = 0 := by
    simpa [List.length_eq_zero] using h
  constructor
  · unfold fetchArticleDetails
    rw [if_neg hlen]
    exact detailsPipeline_eq lang pages
  · intro p q hp hq
    have hred : fetchArticleDetails lang pageIds (Except.ok [p, q]) =
        ([p, q].filterMap (pageToArticle lang)).filter hasThumbSource := by
      unfold fetchArticleDetails
      rw [if_neg hlen]
    rw [hred, detailsPipeline_eq lang [p, q]]
    have hqfalse : pageHasAllFields q = false := by
      unfold pageHasAllFields
      rw [hq]
      simp
    simp [List.filter_cons, hp, hqfalse]

/-- A well-formed detail-response page. -/
def pGood : PageInfo :=
  { pageid := some 10
    title := some "A"
    extract := some "ex"
    canonicalurl := some "http"
    varianttitles := none
    thumbnail := some { source := "img", width := 800, height := 600 } }

/-- A detail-response page lacking only its thumbnail. -/
def pBad : PageInfo :=
  { pageid := some 11
    title := some "B"
    extract := some "ex2"
    canonicalurl := some "http2"
    varianttitles := none
    thumbnail := none }

theorem fetchArticleDetails_validation_witness :
    fetchArticleDetails "en" [10, 11] (Except.ok [pGood, pBad]) = [pageRecord "en" pGood] :=
  (fetchArticleDetails_validation "en" [10, 11] [pGood, pBad] (by decide)).2 pGood pBad
    (by decide) rfl

/-! Supporting lemmas for the resolver -/

/-- The oracle makes a resolution fail: either an `error` payload arrives,
or the response stream ends while a continuation token is pending. -/
def netFails : List CMResponse → Bool
  | [] => true
  | r :: rest =>
    if r.error.isSome then true
    else
      match contToken r.cont with
      | none => false
      | some _ => netFails rest

theorem fetchLoop_count_pos (f : CategoryMember → α) :
    ∀ (net : List CMResponse) (acc : List α), 1 ≤ (fetchLoop f net acc).2
  | [], _ => le_refl 1
  | r :: rest, acc => by
    unfold fetchLoop
    by_cases he : r.error.isSome
    · simp [he]
    · cases hc : contToken r.cont with
      | none => simp [he, hc]
      | some c => simp [he, hc]

theorem fetchLoop_fails (f : CategoryMember → α) :
    ∀ (net : List CMResponse) (acc : List α), netFails net = true →
      (fetchLoop f net acc).1 = Except.error ()
  | [], _, _ => rfl
  | r :: rest, acc, h => by
    unfold fetchLoop
    unfold netFails at h
    by_cases he : r.error.isSome
    · simp [he]
    · rw [if_neg he] at h ⊢
      cases hc : contToken r.cont with
      | none => rw [hc] at h; simp at h
      | some c => rw [hc] at h; exact fetchLoop_fails f rest (acc ++ r.members.map f) h

theorem statusSet_status_self (st : ResolverState) (key : String) (s : FetchStatus) :
    (statusSet st key s).fetchingStatus key = some s := by
  simp [statusSet]

theorem statusSet_pageIds (st : ResolverState) (key : String) (s : FetchStatus) :
    (statusSet st key s).categoryPageIds = st.categoryPageIds := rfl

theorem statusSet_subcats (st : ResolverState) (key : String) (s : FetchStatus) :
    (statusSet st key s).categorySubcats = st.categorySubcats := rfl

theorem pageCacheSet_self (st : ResolverState) (cat : String) (v : Option (List Nat)) :
    (pageCacheSet st cat v).categoryPageIds cat = some v := by
  simp [pageCacheSet]

theorem pageCacheSet_status (st : ResolverState) (cat : String) (v : Option (List Nat)) :
    (pageCacheSet st cat v).fetchingStatus = st.fetchingStatus := rfl

theorem subcatCacheSet_self (st : ResolverState) (cat : String) (v : Option (List String)) :
    (subcatCacheSet st cat v).categorySubcats cat = some v := by
  simp [subcatCacheSet]

theorem subcatCacheSet_status (st : ResolverState) (cat : String) (v : Option (List String)) :
    (subcatCacheSet st cat v).fetchingStatus = st.fetchingStatus := rfl

theorem cachedEntry_statusSet (st : ResolverState) (key : String) (s : FetchStatus)
    (cat : String) (t : MemberType) :
    cachedEntry (statusSet st key s) cat t = cachedEntry st cat t := by
  cases t <;> rfl

theorem beginFetch_proceed_of_undef (st : ResolverState) (cat : String) (t : MemberType)
    (hc : cachedEntry st cat t = none)
    (hp : st.fetchingStatus (cacheKey cat t) ≠ some FetchStatus.pending) :
    beginFetch st cat t =
      (BeginOutcome.proceed, statusSet st (cacheKey cat t) FetchStatus.pending) := by
  unfold beginFetch
  rw [hc]
  simp [hp]

theorem fetchCategoryMembers_of_hit (st : ResolverState) (cat : String) (t : MemberType)
    (net : List CMResponse) (r : FetchResult)
    (hr : cachedEntry st cat t = some r)
    (herr : st.fetchingStatus (cacheKey cat t) ≠ some FetchStatus.error) :
    fetchCategoryMembers st cat t net = (r, st, 0) := by
  unfold fetchCategoryMembers beginFetch
  rw [hr]
  simp [herr]

theorem fetchCategoryMembers_of_proceed (st : ResolverState) (cat : String) (t : MemberType)
    (net : List CMResponse)
    (hc : cachedEntry st cat t = none)
    (hp : st.fetchingStatus (cacheKey cat t) ≠ some FetchStatus.pending) :
    fetchCategoryMembers st cat t net =
      finishFetch (statusSet st (cacheKey cat t) FetchStatus.pending) cat t net := by
  unfold fetchCategoryMembers
  rw [beginFetch_proceed_of_undef st cat t hc hp]

theorem finishFetch_count_pos (st : ResolverState) (cat : String) (t : MemberType)
    (net : List CMResponse) : 1 ≤ (finishFetch st cat t net).2.2 := by
  cases t
  · unfold finishFetch
    rcases hl : fetchLoop (fun m => m.pageid) net [] with ⟨res, n⟩
    have hn : 1 ≤ n := by
      have := fetchLoop_count_pos (fun m => m.pageid) net []
      rw [hl] at this
      exact this
    cases res <;> simp [hl, hn]
  · unfold finishFetch
    rcases hl : fetchLoop (fun m => m.title) net [] with ⟨res, n⟩
    have hn : 1 ≤ n := by
      have := fetchLoop_count_pos (fun m => m.title) net []
      rw [hl] at this
      exact this
    cases res <;> simp [hl, hn]

theorem finishFetch_error_state (st : ResolverState) (cat : String) (t : MemberType)
    (net : List CMResponse) (hfail : netFails net = true) :
    (finishFetch st cat t net).1 = FetchResult.nullResult ∧
    cachedEntry (finishFetch st cat t net).2.1 cat t = some FetchResult.nullResult ∧
    (finishFetch st cat t net).2.1.fetchingStatus (cacheKey cat t) = some FetchStatus.error := by
  cases t
  · rcases hl : fetchLoop (fun m => m.pageid) net [] with ⟨res, n⟩
    have herr : res = Except.error () := by
      have := fetchLoop_fails (fun m => m.pageid) net [] hfail
      rw [hl] at this
      exact this
    subst herr
    have hstat : (pageCacheSet (statusSet st (cacheKey cat MemberType.page) FetchStatus.error)
        cat none).fetchingStatus (cacheKey cat MemberType.page) = some FetchStatus.error := by
      rw [pageCacheSet_status]
      exact statusSet_status_self st _ _
    have hff : finishFetch st cat MemberType.page net =
        (FetchResult.nullResult,
          finalizeStatus (pageCacheSet (statusSet st (cacheKey cat MemberType.page)
            FetchStatus.error) cat none) (cacheKey cat MemberType.page), n) := by
      unfold finishFetch
      rw [hl]
    have hfin :
        finalizeStatus (pageCacheSet (statusSet st (cacheKey cat MemberType.page)
          FetchStatus.error) cat none) (cacheKey cat MemberType.page) =
        pageCacheSet (statusSet st (cacheKey cat MemberType.page) FetchStatus.error) cat none := by
      unfold finalizeStatus
      rw [hstat]
      simp
    rw [hff, hfin]
    refine ⟨rfl, ?_, hstat⟩
    unfold cachedEntry
    rw [pageCacheSet_self]
    rfl
  · rcases hl : fetchLoop (fun m => m.title) net [] with ⟨res, n⟩
    have herr : res = Except.error () := by
      have := fetchLoop_fails (fun m => m.title) net [] hfail
      rw [hl] at this
      exact this
    subst herr
    have hstat : (subcatCacheSet (statusSet st (cacheKey cat MemberType.subcat) FetchStatus.error)
        cat none).fetchingStatus (cacheKey cat MemberType.subcat) = some FetchStatus.error := by
      rw [subcatCacheSet_status]
      exact statusSet_status_self st _ _
    have hff : finishFetch st cat MemberType.subcat net =
        (FetchResult.nullResult,
          finalizeStatus (subcatCacheSet (statusSet st (cacheKey cat MemberType.subcat)
            FetchStatus.error) cat none) (cacheKey cat MemberType.subcat), n) := by
      unfold finishFetch
      rw [hl]
    have hfin :
        finalizeStatus (subcatCacheSet (statusSet st (cacheKey cat MemberType.subcat)
          FetchStatus.error) cat none) (cacheKey cat MemberType.subcat) =
        subcatCacheSet (statusSet st (cacheKey cat MemberType.subcat) FetchStatus.error)
          cat none := by
      unfold finalizeStatus
      rw [hstat]
      simp
    rw [hff, hfin]
    refine ⟨rfl, ?_, hstat⟩
    unfold cachedEntry
    rw [subcatCacheSet_self]
    rfl

theorem finishFetch_terminal_status (st : ResolverState) (cat : String) (t : MemberType)
    (net : List CMResponse) :
    (finishFetch st cat t net).2.1.fetchingStatus (cacheKey cat t) = some FetchStatus.done ∨
    (finishFetch st cat t net).2.1.fetchingStatus (cacheKey cat t) = some FetchStatus.error := by
  cases t
  · rcases hl : fetchLoop (fun m => m.pageid) net [] with ⟨res, n⟩
    cases res with
    | ok ids =>
      left
      have hstat : (statusSet (pageCacheSet st cat (some ids)) (cacheKey cat MemberType.page)
          FetchStatus.done).fetchingStatus (cacheKey cat MemberType.page) =
          some FetchStatus.done := statusSet_status_self _ _ _
      have hff : finishFetch st cat MemberType.page net =
          (FetchResult.pages ids,
            finalizeStatus (statusSet (pageCacheSet st cat (some ids))
              (cacheKey cat MemberType.page) FetchStatus.done) (cacheKey cat MemberType.page),
            n) := by
        unfold finishFetch
        rw [hl]
      rw [hff]
      unfold finalizeStatus
      rw [hstat]
      simp only [reduceCtorEq, if_false]
      exact hstat
    | error e =>
      right
      have hstat : (pageCacheSet (statusSet st (cacheKey cat MemberType.page) FetchStatus.error)
          cat none).fetchingStatus (cacheKey cat MemberType.page) = some FetchStatus.error := by
        rw [pageCacheSet_status]
        exact statusSet_status_self st _ _
      have hff : finishFetch st cat MemberType.page net =
          (FetchResult.nullResult,
            finalizeStatus (pageCacheSet (statusSet st (cacheKey cat MemberType.page)
              FetchStatus.error) cat none) (cacheKey cat MemberType.page), n) := by
        unfold finishFetch
        rw [hl]
      rw [hff]
      unfold finalizeStatus
      rw [hstat]
      simp only [reduceCtorEq, if_false]
      exact hstat
  · rcases hl : fetchLoop (fun m => m.title) net [] with ⟨res, n⟩
    cases res with
    | ok ts =>
      left
      have hstat : (statusSet (subcatCacheSet st cat (some ts)) (cacheKey cat MemberType.subcat)
          FetchStatus.done).fetchingStatus (cacheKey cat MemberType.subcat) =
          some FetchStatus.done := statusSet_status_self _ _ _
      have hff : finishFetch st cat MemberType.subcat net =
          (FetchResult.subcats ts,
            finalizeStatus (statusSet (subcatCacheSet st cat (some ts))
              (cacheKey cat MemberType.subcat) FetchStatus.done) (cacheKey cat MemberType.subcat),
            n) := by
        unfold finishFetch
        rw [hl]
      rw [hff]
      unfold finalizeStatus
      rw [hstat]
      simp only [reduceCtorEq, if_false]
      exact hstat
    | error e =>
      right
      have hstat : (subcatCacheSet (statusSet st (cacheKey cat MemberType.subcat)
          FetchStatus.error) cat none).fetchingStatus (cacheKey cat MemberType.subcat) =
          some FetchStatus.error := by
        rw [subcatCacheSet_status]
        exact statusSet_status_self st _ _
      have hff : finishFetch st cat MemberType.subcat net =
          (FetchResult.nullResult,
            finalizeStatus (subcatCacheSet (statusSet st (cacheKey cat MemberType.subcat)
              FetchStatus.error) cat none) (cacheKey cat MemberType.subcat), n) := by
        unfold finishFetch
        rw [hl]
      rw [hff]
      unfold finalizeStatus
      rw [hstat]
      simp only [reduceCtorEq, if_false]
      exact hstat

/-! Claim theorems: resolver caching and statuses (C3, C4, C6) -/

/-- C3: for a (category, kind) key holding a cached, non-error result, a
call to `fetchCategoryMembers` returns exactly the cached value, leaves the
resolver state untouched and issues no network call — and a second call for
the same key returns the identical value. -/
theorem fetchCategoryMembers_cached_idempotent (st : ResolverState) (cat : String)
    (t : MemberType) (net net2 : List CMResponse)
    (hdef : (cachedEntry st cat t).isSome = true)
    (herr : st.fetchingStatus (cacheKey cat t) ≠ some FetchStatus.error) :
    (fetchCategoryMembers st cat t net).1 = (cachedEntry st cat t).getD FetchResult.nullResult ∧
    (fetchCategoryMembers st cat t net).2.1 = st ∧
    (fetchCategoryMembers st cat t net).2.2 = 0 ∧
    (fetchCategoryMembers st cat t net2).1 = (fetchCategoryMembers st cat t net).1 := by
  obtain ⟨r, hr⟩ := Option.isSome_iff_exists.mp hdef
  rw [fetchCategoryMembers_of_hit st cat t net r hr herr,
    fetchCategoryMembers_of_hit st cat t net2 r hr herr, hr]
  exact ⟨rfl, rfl, rfl, rfl⟩

/-- The resolver state before any resolution has happened. -/
def emptyResolverState : ResolverState :=
  { categoryPageIds := fun _ => none
    categorySubcats := fun _ => none
    fetchingStatus := fun _ => none }

/-- A resolver state holding a successfully cached page list for `"c"`. -/
def stHit : ResolverState :=
  pageCacheSet (statusSet emptyResolverState (cacheKey "c" MemberType.page) FetchStatus.done)
    "c" (some [1, 2, 3])

theorem fetchCategoryMembers_cached_idempotent_witness :
    (fetchCategoryMembers stHit "c" MemberType.page []).2.2 = 0 ∧
    (fetchCategoryMembers stHit "c" MemberType.page []).1 =
      (cachedEntry stHit "c" MemberType.page).getD FetchResult.nullResult :=
  ⟨(fetchCategoryMembers_cached_idempotent stHit "c" MemberType.page [] [] (by decide)
      (by decide)).2.2.1,
   (fetchCategoryMembers_cached_idempotent stHit "c" MemberType.page [] [] (by decide)
      (by decide)).1⟩

/-- C4: at most one resolution is pending per (category, kind) key.  When a
first call proceeds to resolve (marking the key `pending`), a second call
for the same key issued before the first completes observes the pending
status, returns null, changes nothing and issues no network call; the pair
of calls performs exactly the network traffic of that single
resolution, which is at least one call. -/
theorem fetchCategoryMembers_single_flight (st : ResolverState) (cat : String) (t : MemberType)
    (net2 : List CMResponse)
    (hundef : cachedEntry st cat t = none)
    (hnp : st.fetchingStatus (cacheKey cat t) ≠ some FetchStatus.pending) :
    beginFetch st cat t =
      (BeginOutcome.proceed, statusSet st (cacheKey cat t) FetchStatus.pending) ∧
    (statusSet st (cacheKey cat t) FetchStatus.pending).fetchingStatus (cacheKey cat t) =
      some FetchStatus.pending ∧
    fetchCategoryMembers (statusSet st (cacheKey cat t) FetchStatus.pending) cat t net2 =
      (FetchResult.nullResult, statusSet st (cacheKey cat t) FetchStatus.pending, 0) ∧
    (∀ net, fetchCategoryMembers st cat t net =
      finishFetch (statusSet st (cacheKey cat t) FetchStatus.pending) cat t net) ∧
    ∀ net, 1 ≤ (finishFetch (statusSet st (cacheKey cat t) FetchStatus.pending) cat t net).2.2 := by
  refine ⟨beginFetch_proceed_of_undef st cat t hundef hnp, statusSet_status_self st _ _, ?_,
    fun net => fetchCategoryMembers_of_proceed st cat t net hundef hnp,
    fun net => finishFetch_count_pos _ cat t net⟩
  have hc2 : cachedEntry (statusSet st (cacheKey cat t) FetchStatus.pending) cat t = none := by
    rw [cachedEntry_statusSet]
    exact hundef
  have hp2 : (statusSet st (cacheKey cat t) FetchStatus.pending).fetchingStatus
      (cacheKey cat t) = some FetchStatus.pending := statusSet_status_self st _ _
  unfold fetchCategoryMembers beginFetch
  rw [hc2, if_pos hp2]

theorem fetchCategoryMembers_single_flight_witness :
    fetchCategoryMembers (statusSet emptyResolverState (cacheKey "c" MemberType.page)
      FetchStatus.pending) "c" MemberType.page [] =
      (FetchResult.nullResult,
        statusSet emptyResolverState (cacheKey "c" MemberType.page) FetchStatus.pending, 0) :=
  (fetchCategoryMembers_single_flight emptyResolverState "c" MemberType.page [] rfl
    (by decide)).2.2.1

/-- A listing response carrying an API error payload. -/
def errResponse : CMResponse :=
  { error := some "boom", members := [], cont := none }

/-- C6: when a resolution for a (category, kind) key fails (network failure
or API error payload), the call caches an explicit null for the key and
marks its status `error`, so a later call for the same key misses the cache
and resolves over the network again; and no resolving call ever ends with
the key left `pending` — its final status is `done` or `error`. -/
theorem fetchCategoryMembers_error_caching (st : ResolverState) (cat : String) (t : MemberType)
    (net : List CMResponse)
    (hundef : cachedEntry st cat t = none)
    (hnp : st.fetchingStatus (cacheKey cat t) ≠ some FetchStatus.pending)
    (hfail : netFails net = true) :
    (fetchCategoryMembers st cat t net).1 = FetchResult.nullResult ∧
    cachedEntry (fetchCategoryMembers st cat t net).2.1 cat t = some FetchResult.nullResult ∧
    (fetchCategoryMembers st cat t net).2.1.fetchingStatus (cacheKey cat t) =
      some FetchStatus.error ∧
    (∀ net3, 1 ≤ (fetchCategoryMembers (fetchCategoryMembers st cat t net).2.1 cat t net3).2.2) ∧
    ∀ net0, (fetchCategoryMembers st cat t net0).2.1.fetchingStatus (cacheKey cat t) =
        some FetchStatus.done ∨
      (fetchCategoryMembers st cat t net0).2.1.fetchingStatus (cacheKey cat t) =
        some FetchStatus.error := by
  have hrun : ∀ netx, fetchCategoryMembers st cat t netx =
      finishFetch (statusSet st (cacheKey cat t) FetchStatus.pending) cat t netx :=
    fun netx => fetchCategoryMembers_of_proceed st cat t netx hundef hnp
  obtain ⟨h1, h2, h3⟩ :=
    finishFetch_error_state (statusSet st (cacheKey cat t) FetchStatus.pending) cat t net hfail
  refine ⟨by rw [hrun net]; exact h1, by rw [hrun net]; exact h2, by rw [hrun net]; exact h3,
    ?_, fun net0 => by rw [hrun net0]; exact finishFetch_terminal_status _ cat t net0⟩
  intro net3
  rw [hrun net]
  have hb : beginFetch (finishFetch (statusSet st (cacheKey cat t) FetchStatus.pending)
      cat t net).2.1 cat t =
      (BeginOutcome.proceed,
        statusSet (finishFetch (statusSet st (cacheKey cat t) FetchStatus.pending)
          cat t net).2.1 (cacheKey cat t) FetchStatus.pending) := by
    unfold beginFetch
    rw [h2]
    simp [h3]
  unfold fetchCategoryMembers
  rw [hb]
  exact finishFetch_count_pos _ cat t net3

theorem fetchCategoryMembers_error_caching_witness :
    (fetchCategoryMembers emptyResolverState "c" MemberType.page
        [errResponse]).2.1.fetchingStatus (cacheKey "c" MemberType.page) =
      some FetchStatus.error :=
  (fetchCategoryMembers_error_caching emptyResolverState "c" MemberType.page [errResponse] rfl
    (by decide) (by decide)).2.2.1

/-! Unbiasedness of the Fisher–Yates shuffle (towards C2) -/

theorem fyAux_step (l : List α) (k j : Nat) (rest : List Nat) :
    fyAux l (k + 1) (j :: rest) = fyAux (swapAt l (k + 1) j) k rest := rfl

theorem swapAt_append (l t : List α) (i j : Nat) (hi : i < l.length) (hj : j < l.length) :
    swapAt (l ++ t) i j = swapAt l i j ++ t := by
  unfold swapAt
  rw [List.getElem?_append_left hi, List.getElem?_append_left hj]
  cases hgi : l[i]? with
  | none => rfl
  | some a =>
    cases hgj : l[j]? with
    | none => rfl
    | some b =>
      show ((l ++ t).set i b).set j a = (l.set i b).set j a ++ t
      rw [List.set_append_left _ _ hi, List.set_append_left _ _ (by simpa using hj)]

theorem fyAux_append :
    ∀ (i : Nat) (draws : List Nat) (l t : List α), i < l.length →
      (∀ j ∈ draws, j < l.length) → fyAux (l ++ t) i draws = fyAux l i draws ++ t
  | 0, _, _, _, _, _ => rfl
  | _ + 1, [], _, _, _, _ => rfl
  | i + 1, j :: rest, l, t, hi, hd => by
    have hj : j < l.length := hd j (List.mem_cons_self j rest)
    rw [fyAux_step, fyAux_step, swapAt_append l t (i + 1) j hi hj]
    exact fyAux_append i rest (swapAt l (i + 1) j) t
      (by rw [swapAt_length]; exact Nat.lt_of_succ_lt hi)
      (fun x hx => by rw [swapAt_length]; exact hd x (List.mem_cons_of_mem j hx))

theorem set_concat_last (l : List α) (hne : l ≠ []) (x : α) :
    l.set (l.length - 1) x = l.dropLast ++ [x] := by
  have h0 : l.dropLast ++ [l.getLast hne] = l := List.dropLast_append_getLast hne
  have hlen : l.dropLast.length ≤ l.length - 1 := by
    rw [List.length_dropLast]
  calc l.set (l.length - 1) x
      = (l.dropLast ++ [l.getLast hne]).set (l.length - 1) x := by rw [h0]
    _ = l.dropLast ++ [l.getLast hne].set (l.length - 1 - l.dropLast.length) x :=
        List.set_append_right _ _ hlen
    _ = l.dropLast ++ [x] := by
        rw [List.length_dropLast]
        simp

theorem swapAt_last (l : List α) (hne : l ≠ []) (j : Nat) (hj : j < l.length) :
    swapAt l (l.length - 1) j = l.dropLast.set j (l.getLast hne) ++ [l.get ⟨j, hj⟩] := by
  have hlt : l.length - 1 < l.length := by
    have : 0 < l.length := List.length_pos.mpr hne
    omega
  have hlast : l[l.length - 1]? = some (l.getLast hne) := by
    rw [List.getElem?_eq_getElem hlt, List.getLast_eq_getElem]
  have hgj : l[j]? = some (l.get ⟨j, hj⟩) := by
    rw [List.getElem?_eq_getElem hj]
    rfl
  unfold swapAt
  rw [hlast, hgj]
  show (l.set (l.length - 1) (l.get ⟨j, hj⟩)).set j (l.getLast hne) =
    l.dropLast.set j (l.getLast hne) ++ [l.get ⟨j, hj⟩]
  rw [set_concat_last l hne (l.get ⟨j, hj⟩)]
  by_cases hjl : j < l.dropLast.length
  · rw [List.set_append_left _ _ hjl]
  · have hge : l.dropLast.length ≤ j := Nat.le_of_not_lt hjl
    have hj2 : j = l.length - 1 := by
      rw [List.length_dropLast] at hge
      omega
    subst hj2
    have hget : l.get ⟨l.length - 1, hj⟩ = l.getLast hne :=
      (List.getLast_eq_getElem l hne).symm
    rw [List.set_append_right _ _ hge, List.set_eq_of_length_le hge]
    have hidx : l.length - 1 - l.dropLast.length = 0 := by
      rw [List.length_dropLast]
      exact Nat.sub_self _
    rw [hidx, hget]
    rfl

theorem shuffle_cons_step (l : List α) (hne : l ≠ []) (h2 : 2 ≤ l.length) (j : Nat)
    (hj : j < l.length) (rest : List Nat) (hrest : ∀ x ∈ rest, x < l.length - 1) :
    shuffleArray l (j :: rest) =
      shuffleArray (l.dropLast.set j (l.getLast hne)) rest ++ [l.get ⟨j, hj⟩] := by
  have hfrontlen : (l.dropLast.set j (l.getLast hne)).length = l.length - 1 := by
    rw [List.length_set, List.length_dropLast]
  have h1 : l.length - 1 = (l.length - 2) + 1 := by omega
  unfold shuffleArray
  rw [h1, fyAux_step, ← h1, swapAt_last l hne j hj]
  rw [fyAux_append (l.length - 2) rest (l.dropLast.set j (l.getLast hne)) _
    (by rw [hfrontlen]; omega)
    (fun x hx => by rw [hfrontlen]; exact hrest x hx)]
  rw [hfrontlen]
  have heq : l.length - 1 - 1 = l.length - 2 := by omega
  rw [heq]

theorem set_perm_eraseIdx_concat :
    ∀ (xs : List α) (k : Nat), k < xs.length → ∀ y : α,
      (xs.set k y).Perm (xs.eraseIdx k ++ [y])
  | a :: as, 0, _, y => by simpa using (List.perm_append_singleton y as).symm
  | a :: as, k + 1, h, y => by
    simpa using (set_perm_eraseIdx_concat as k (by simpa using h) y).cons a

theorem set_get_self : ∀ (l : List α) (k : Nat) (h : k < l.length), l.set k (l.get ⟨k, h⟩) = l
  | _ :: _, 0, _ => rfl
  | a :: as, k + 1, h => by
    have := set_get_self as k (by simpa using h)
    simpa using this

theorem perm_eraseIdx_concat (l : List α) (k : Nat) (h : k < l.length) :
    l.Perm (l.eraseIdx k ++ [l.get ⟨k, h⟩]) := by
  have := set_perm_eraseIdx_concat l k h (l.get ⟨k, h⟩)
  rw [set_get_self l k h] at this
  exact this

theorem eraseIdx_append_left :
    ∀ (xs ys : List α) (k : Nat), k < xs.length →
      (xs ++ ys).eraseIdx k = xs.eraseIdx k ++ ys
  | _ :: _, _, 0, _ => rfl
  | a :: as, ys, k + 1, h => by
    have := eraseIdx_append_left as ys k (by simpa using h)
    simpa using this

theorem eraseIdx_concat_length : ∀ (xs : List α) (y : α), (xs ++ [y]).eraseIdx xs.length = xs
  | [], _ => rfl
  | a :: as, y => by
    have := eraseIdx_concat_length as y
    simpa using this

theorem front_perm_eraseIdx (l : List α) (hne : l ≠ []) (j : Nat) (hj : j < l.length) :
    (l.dropLast.set j (l.getLast hne)).Perm (l.eraseIdx j) := by
  by_cases hjl : j < l.dropLast.length
  · have h1 : (l.dropLast.set j (l.getLast hne)).Perm
        (l.dropLast.eraseIdx j ++ [l.getLast hne]) :=
      set_perm_eraseIdx_concat _ j hjl _
    have h2 : l.eraseIdx j = l.dropLast.eraseIdx j ++ [l.getLast hne] := by
      conv_lhs => rw [← List.dropLast_append_getLast hne]
      exact eraseIdx_append_left _ _ j hjl
    rw [h2]
    exact h1
  · have hge : l.dropLast.length ≤ j := Nat.le_of_not_lt hjl
    have hset : l.dropLast.set j (l.getLast hne) = l.dropLast :=
      List.set_eq_of_length_le hge
    have hj2 : j = l.dropLast.length := by
      rw [List.length_dropLast] at hge ⊢
      omega
    have herase : l.eraseIdx j = l.dropLast := by
      conv_lhs => rw [← List.dropLast_append_getLast hne, hj2]
      exact eraseIdx_concat_length _ _
    rw [hset, herase]

theorem validDraws_le_one (n : Nat) (hn : n ≤ 1) (d : List Nat) :
    validDraws n d = true ↔ d = [] := by
  match n, hn with
  | 0, _ => unfold validDraws; exact List.isEmpty_iff
  | 1, _ => unfold validDraws; exact List.isEmpty_iff

theorem validDraws_succ_succ (m : Nat) (d : List Nat) :
    validDraws (m + 2) d = true ↔
      ∃ j rest, d = j :: rest ∧ j ≤ m + 1 ∧ validDraws (m + 1) rest = true := by
  cases d with
  | nil => simp [validDraws]
  | cons j rest =>
    have he : validDraws (m + 2) (j :: rest) =
        (decide (j ≤ m + 1) && validDraws (m + 1) rest) := rfl
    rw [he]
    simp only [Bool.and_eq_true, decide_eq_true_eq]
    constructor
    · rintro ⟨h1, h2⟩
      exact ⟨j, rest, rfl, h1, h2⟩
    · rintro ⟨j2, rest2, heq, h1, h2⟩
      cases heq
      exact ⟨h1, h2⟩

theorem validDraws_mem_lt :
    ∀ (n : Nat) (d : List Nat), validDraws n d = true → ∀ x ∈ d, x < n
  | 0, d, h => by
    rw [validDraws_le_one 0 (le_refl 1 |> fun _ => Nat.zero_le 1) d] at h
    subst h
    intro x hx
    exact absurd hx (List.not_mem_nil x)
  | 1, d, h => by
    rw [validDraws_le_one 1 (le_refl 1) d] at h
    subst h
    intro x hx
    exact absurd hx (List.not_mem_nil x)
  | m + 2, d, h => by
    rw [validDraws_succ_succ m d] at h
    obtain ⟨j, rest, heq, hj, hrest⟩ := h
    subst heq
    intro x hx
    rcases List.mem_cons.mp hx with h1 | h2
    · omega
    · have := validDraws_mem_lt (m + 1) rest hrest x h2
      omega

theorem shuffle_uniform_aux [DecidableEq α] (n : Nat) :
    ∀ l : List α, l.length = n → l.Nodup → ∀ p : List α, p.Perm l →
      ∃! d : List Nat, validDraws n d = true ∧ shuffleArray l d = p := by
  induction n with
  | zero =>
    intro l hl hnd p hp
    have hl0 : l = [] := List.length_eq_zero.mp hl
    subst hl0
    have hp0 : p = [] := hp.eq_nil
    subst hp0
    refine ⟨[], ⟨rfl, rfl⟩, ?_⟩
    intro y hy
    exact (validDraws_le_one 0 (Nat.zero_le 1) y).mp hy.1
  | succ m ih =>
    intro l hl hnd p hp
    cases m with
    | zero =>
      obtain ⟨a, ha⟩ := List.length_eq_one.mp hl
      subst ha
      have hp1 : p = [a] := List.perm_singleton.mp hp
      subst hp1
      refine ⟨[], ⟨rfl, rfl⟩, ?_⟩
      intro y hy
      exact (validDraws_le_one 1 (le_refl 1) y).mp hy.1
    | succ m2 =>
      have hne : l ≠ [] := by
        intro h
        rw [h] at hl
        simp at hl
      have hplen : p.length = m2 + 2 := by rw [hp.length_eq, hl]
      have hpne : p ≠ [] := by
        intro h
        rw [h] at hplen
        simp at hplen
      have h2 : 2 ≤ l.length := by omega
      set x := p.getLast hpne with hx
      have hxl : x ∈ l := hp.subset (List.getLast_mem hpne)
      have hj : List.indexOf x l < l.length := List.indexOf_lt_length.mpr hxl
      have hjn : List.indexOf x l < m2 + 2 := by
        rw [hl] at hj
        exact hj
      have hgetj : l.get ⟨List.indexOf x l, hj⟩ = x := List.indexOf_get hj
      have hfrontlen : (l.dropLast.set (List.indexOf x l) (l.getLast hne)).length = m2 + 1 := by
        rw [List.length_set, List.length_dropLast, hl]
        omega
      have hfp : (l.dropLast.set (List.indexOf x l) (l.getLast hne)).Perm
          (l.eraseIdx (List.indexOf x l)) := front_perm_eraseIdx l hne _ hj
      have hndE : (l.eraseIdx (List.indexOf x l)).Nodup :=
        (List.eraseIdx_sublist l (List.indexOf x l)).nodup hnd
      have hnd2 : (l.dropLast.set (List.indexOf x l) (l.getLast hne)).Nodup :=
        hfp.nodup_iff.mpr hndE
      have e2 : l.Perm (l.eraseIdx (List.indexOf x l) ++ [x]) := by
        have hpe := perm_eraseIdx_concat l (List.indexOf x l) hj
        rw [hgetj] at hpe
        exact hpe
      have e1 : p.dropLast ++ [x] = p := List.dropLast_append_getLast hpne
      have e4 : p.dropLast.Perm (l.eraseIdx (List.indexOf x l)) := by
        have e3 : (p.dropLast ++ [x]).Perm (l.eraseIdx (List.indexOf x l) ++ [x]) := by
          rw [e1]
          exact hp.trans e2
        exact (List.perm_append_right_iff [x]).mp e3
      have hpd : p.dropLast.Perm (l.dropLast.set (List.indexOf x l) (l.getLast hne)) :=
        e4.trans hfp.symm
      obtain ⟨rest, ⟨hrv, hrs⟩, hru⟩ :=
        ih (l.dropLast.set (List.indexOf x l) (l.getLast hne)) hfrontlen hnd2 p.dropLast hpd
      have hrestlt : ∀ y ∈ rest, y < l.length - 1 := by
        intro y hy
        have := validDraws_mem_lt (m2 + 1) rest hrv y hy
        omega
      have hstep : shuffleArray l (List.indexOf x l :: rest) =
          shuffleArray (l.dropLast.set (List.indexOf x l) (l.getLast hne)) rest ++
            [l.get ⟨List.indexOf x l, hj⟩] :=
        shuffle_cons_step l hne h2 _ hj rest hrestlt
      refine ⟨List.indexOf x l :: rest, ⟨?_, ?_⟩, ?_⟩
      · rw [validDraws_succ_succ]
        exact ⟨List.indexOf x l, rest, rfl, by omega, hrv⟩
      · rw [hstep, hgetj, hrs, e1]
      · rintro y ⟨hyv, hys⟩
        obtain ⟨j2, rest2, heq, hj2le, hr2v⟩ := (validDraws_succ_succ m2 y).mp hyv
        subst heq
        have hj2 : j2 < l.length := by
          rw [hl]
          omega
        have hrest2lt : ∀ z ∈ rest2, z < l.length - 1 := by
          intro z hz
          have := validDraws_mem_lt (m2 + 1) rest2 hr2v z hz
          omega
        have hstep2 : shuffleArray l (j2 :: rest2) =
            shuffleArray (l.dropLast.set j2 (l.getLast hne)) rest2 ++ [l.get ⟨j2, hj2⟩] :=
          shuffle_cons_step l hne h2 j2 hj2 rest2 hrest2lt
        rw [hstep2, ← e1] at hys
        have hlen2 : (shuffleArray (l.dropLast.set j2 (l.getLast hne)) rest2).length =
            p.dropLast.length := by
          rw [shuffleArray_length, List.length_set, List.length_dropLast, List.length_dropLast,
            hl, hplen]
        obtain ⟨hpre, hsuf⟩ := List.append_inj hys hlen2
        have hget2 : l.get ⟨j2, hj2⟩ = x := by simpa using hsuf
        have hfin : (⟨j2, hj2⟩ : Fin l.length) = ⟨List.indexOf x l, hj⟩ :=
          hnd.get_inj_iff.mp (by rw [hget2, hgetj])
        have hjj : j2 = List.indexOf x l := congrArg Fin.val hfin
        subst hjj
        have hr : rest2 = rest := hru rest2 ⟨hr2v, hpre⟩
        rw [hr]

/-- C2: the subcategory sampler shuffles the full aggregated name list with
the Fisher–Yates `shuffleArray` and takes a prefix of at most
`SUBCAT_SAMPLE_SIZE` (5) names.  The shuffle is unbiased: for every
(duplicate-free) input list, each permutation of it is produced by exactly
one sequence of in-range index draws, so under the uniform,
independent `Math.random()` draws every permutation has equal probability
`1/n!`. -/
theorem sampleSubcats_unbiased (names : List String) (hnd : names.Nodup) :
    (∀ p : List String, p.Perm names →
      ∃! d : List Nat, validDraws names.length d = true ∧ shuffleArray names d = p) ∧
    ∀ d : List Nat,
      sampleSubcats names d = (shuffleArray names d).take SUBCAT_SAMPLE_SIZE ∧
      (sampleSubcats names d).length = min SUBCAT_SAMPLE_SIZE names.length ∧
      ∀ s ∈ sampleSubcats names d, s ∈ names := by
  refine ⟨fun p hp => shuffle_uniform_aux names.length names rfl hnd p hp,
    fun d => ⟨rfl, ?_, ?_⟩⟩
  · simp [sampleSubcats, shuffleArray_length]
  · intro s hs
    exact shuffleArray_mem (List.mem_of_mem_take hs)

theorem sampleSubcats_unbiased_witness :
    (sampleSubcats ["a", "b"] [1]).length = min SUBCAT_SAMPLE_SIZE (["a", "b"] : List String).length :=
  ((sampleSubcats_unbiased ["a", "b"] (by decide)).2 [1]).2.1

end BallTok
